import Mathlib

/-
  Shallow embedding of src/vl53l1x_wiringpi.c, a VL53L1X time-of-flight
  sensor poll program.  The I2C bus is modelled as a state carrying a
  read oracle (byte returned by the n-th wiringPiI2CRead call) and a
  trace of bus events; each C function becomes a Lean function threading
  that state.  C unsigned char / unsigned short values are Nat with the
  masks the source applies; the C int return values carrying the -1
  sentinel become Int.
-/

namespace VL53L1X

/-- Register addresses, from the define block of the source. -/
def SOFT_RESET : Nat := 0x0000

def FIRMWARE_SYSTEM_STATUS : Nat := 0x0010

def IDENTIFICATION_MODEL_ID : Nat := 0x010F

def SYSTEM_INTERRUPT_CLEAR : Nat := 0x0086

def SYSTEM_MODE_START : Nat := 0x0087

def GPIO_TIO_HV_STATUS : Nat := 0x0031

def RESULT_RANGE_STATUS : Nat := 0x0089

def RESULT_DISTANCE : Nat := 0x0096

def RANGE_CONFIG_VCSEL_PERIOD_A : Nat := 0x0060

def RANGE_CONFIG_VCSEL_PERIOD_B : Nat := 0x0063

def RANGE_CONFIG_TIMEOUT_MACROP_A : Nat := 0x005E

def RANGE_CONFIG_TIMEOUT_MACROP_B : Nat := 0x0061

def RANGE_CONFIG_VALID_PHASE_HIGH : Nat := 0x0069

def SYSTEM_INTERRUPT_CONFIG_GPIO : Nat := 0x0046

/-- One transaction issued to the wiringPi I2C layer: a register-byte
write (wiringPiI2CWriteReg8), a raw byte write (wiringPiI2CWrite), or a
raw byte read (wiringPiI2CRead) recording the byte the bus returned. -/
inductive BusEvent where
  | writeReg8 (reg val : Nat) : BusEvent
  | write (val : Nat) : BusEvent
  | read (val : Nat) : BusEvent
deriving DecidableEq, Repr

/-- Mock bus: reads is the oracle giving the value returned by the n-th
wiringPiI2CRead call, idx counts the reads performed so far, and trace
accumulates every transaction in order. -/
structure Bus where
  reads : Nat → Nat
  idx : Nat
  trace : List BusEvent

/-- Fresh mock bus over a read oracle. -/
def Bus.mk0 (f : Nat → Nat) : Bus := ⟨f, 0, []⟩

/-- Model of wiringPiI2CWriteReg8 fd reg val. -/
def i2cWriteReg8 (b : Bus) (reg val : Nat) : Bus :=
  { b with trace := b.trace ++ [BusEvent.writeReg8 reg val] }

/-- Model of wiringPiI2CWrite fd val. -/
def i2cWrite (b : Bus) (val : Nat) : Bus :=
  { b with trace := b.trace ++ [BusEvent.write val] }

/-- Model of wiringPiI2CRead fd: consumes the next oracle byte. -/
def i2cRead (b : Bus) : Nat × Bus :=
  (b.reads b.idx,
   { b with idx := b.idx + 1,
            trace := b.trace ++ [BusEvent.read (b.reads b.idx)] })

/-- writeReg8 from the source: transmit the register address as two
bytes, then the data byte. -/
def writeReg8 (b : Bus) (reg value : Nat) : Bus :=
  i2cWrite (i2cWriteReg8 b ((reg >>> 8) &&& 0xFF) (reg &&& 0xFF)) value

/-- writeReg16 from the source: transmit the register address, then the
16-bit value big-endian (high byte first). -/
def writeReg16 (b : Bus) (reg value : Nat) : Bus :=
  i2cWrite
    (i2cWrite (i2cWriteReg8 b ((reg >>> 8) &&& 0xFF) (reg &&& 0xFF))
      ((value >>> 8) &&& 0xFF))
    (value &&& 0xFF)

/-- readReg8 from the source: transmit the register address, then read
one byte, masked to 8 bits. -/
def readReg8 (b : Bus) (reg : Nat) : Nat × Bus :=
  let b1 := i2cWriteReg8 b ((reg >>> 8) &&& 0xFF) (reg &&& 0xFF)
  let r := i2cRead b1
  (r.1 &&& 0xFF, r.2)

/-- readReg16 from the source: transmit the register address, read two
bytes, combine big-endian as high shifted left 8 or-ed with low. -/
def readReg16 (b : Bus) (reg : Nat) : Nat × Bus :=
  let b1 := i2cWriteReg8 b ((reg >>> 8) &&& 0xFF) (reg &&& 0xFF)
  let rh := i2cRead b1
  let rl := i2cRead rh.2
  (((rh.1 &&& 0xFF) <<< 8) ||| (rl.1 &&& 0xFF), rl.2)

/-- getDistance from the source: read the GPIO status register and
return the -1 sentinel if bit 0 is unset; otherwise read the range
status byte and the 16-bit distance, unconditionally clear the
interrupt, and return the distance when 0 < distance < 8000 and the
upper nibble of the status byte is 0, else the -1 sentinel. -/
def getDistance (b : Bus) : Int × Bus :=
  let g := readReg8 b GPIO_TIO_HV_STATUS
  if g.1 &&& 0x01 = 0 then
    (-1, g.2)
  else
    let rs := readReg8 g.2 RESULT_RANGE_STATUS
    let rd := readReg16 rs.2 RESULT_DISTANCE
    let b4 := writeReg8 rd.2 SYSTEM_INTERRUPT_CLEAR 0x01
    if rd.1 > 0 ∧ rd.1 < 8000 then
      if (rs.1 >>> 4) &&& 0x0F = 0 then ((rd.1 : Int), b4) else (-1, b4)
    else
      (-1, b4)

/-- Number of interrupt-clear transactions in a trace: adjacent pairs
consisting of the address setup for register 0x0086 followed by the
data byte 0x01. -/
def countClearWrites : List BusEvent → Nat
  | [] => 0
  | [_] => 0
  | e1 :: e2 :: rest =>
    (if e1 = BusEvent.writeReg8 0x00 0x86 ∧ e2 = BusEvent.write 0x01 then 1 else 0) +
      countClearWrites (e2 :: rest)

/-- The firmware-ready loop of initSensor: up to n more reads of
FIRMWARE_SYSTEM_STATUS, stopping as soon as bit 0 is set; returns
whether the loop broke out before exhausting its attempts. -/
def fwPoll : Nat → Bus → Bool × Bus
  | 0, b => (false, b)
  | n + 1, b =>
    let r := readReg8 b FIRMWARE_SYSTEM_STATUS
    if r.1 &&& 0x01 ≠ 0 then (true, r.2) else fwPoll n r.2

/-- initSensor from the source: read the model id and fail with -1
unless it is 0xEACC; then soft-reset, poll the firmware status up to
100 times failing with -1 on exhaustion, write the fixed configuration
values, and return 0. -/
def initSensor (b : Bus) : Int × Bus :=
  let r := readReg16 b IDENTIFICATION_MODEL_ID
  if r.1 = 0xEACC then
    let b2 := writeReg8 r.2 SOFT_RESET 0x00
    let b3 := writeReg8 b2 SOFT_RESET 0x01
    let p := fwPoll 100 b3
    if p.1 then
      let b4 := writeReg8 p.2 RANGE_CONFIG_VCSEL_PERIOD_A 0x09
      let b5 := writeReg8 b4 RANGE_CONFIG_VCSEL_PERIOD_B 0x0D
      let b6 := writeReg8 b5 RANGE_CONFIG_VALID_PHASE_HIGH 0xC8
      let b7 := writeReg16 b6 RANGE_CONFIG_TIMEOUT_MACROP_A 0x00D6
      let b8 := writeReg16 b7 RANGE_CONFIG_TIMEOUT_MACROP_B 0x00D6
      let b9 := writeReg8 b8 SYSTEM_INTERRUPT_CONFIG_GPIO 0x01
      let b10 := writeReg8 b9 SYSTEM_INTERRUPT_CLEAR 0x01
      (0, b10)
    else
      (-1, p.2)
  else
    (-1, r.2)

/-- startRanging from the source: clear the interrupt, then write the
start command 0x40 to the mode-start register. -/
def startRanging (b : Bus) : Bus :=
  writeReg8 (writeReg8 b SYSTEM_INTERRUPT_CLEAR 0x01) SYSTEM_MODE_START 0x40

/-- Number of firmware-status read transactions in a trace, counted by
their address-setup events for register 0x0010. -/
def countFwReads (t : List BusEvent) : Nat :=
  t.countP (fun e => e == BusEvent.writeReg8 0x00 0x10)

/-- Oracle whose firmware-status byte has bit 0 unset for the first 99
polls after the identification bytes, and set on the 100th poll. -/
def fwLateOracle : Nat → Nat :=
  fun i => if i = 0 then 0xEA else if i = 1 then 0xCC else if i ≤ 100 then 0 else 1

/-- Oracle answering the identification bytes and then zero forever, so
the firmware-ready bit is never reported set. -/
def fwNeverOracle : Nat → Nat :=
  fun i => if i = 0 then 0xEA else if i = 1 then 0xCC else 0

/-- The console effect of one printDistance call: the running counter,
the distance, the bar count of the proportional bar, and which of the
two proximity tags the line carries. -/
structure SampleLine where
  count : Int
  distance : Int
  bars : Int
  veryClose : Bool
  close : Bool
deriving DecidableEq, Repr

/-- printDistance from the source: the bar count is distance / 100 in C
integer division, clamped to 40; the very-close tag is printed when
distance < 100, else the close tag when distance < 300. -/
def printDistance (distance count : Int) : SampleLine :=
  let bars0 := distance.tdiv 100
  let bars := if bars0 > 40 then 40 else bars0
  if distance < 100 then ⟨count, distance, bars, true, false⟩
  else if distance < 300 then ⟨count, distance, bars, false, true⟩
  else ⟨count, distance, bars, false, false⟩

/-- The five accumulator variables of main, all C ints. -/
structure Stats where
  count : Int
  errors : Int
  sum : Int
  min_dist : Int
  max_dist : Int
deriving DecidableEq, Repr

/-- Initial values of the accumulators in main. -/
def Stats.start : Stats := ⟨0, 0, 0, 9999, 0⟩

/-- One console line of the main loop: either a sample line or the
periodic waiting warning with the current error count. -/
inductive ConsoleLine where
  | sample (line : SampleLine) : ConsoleLine
  | waiting (errors : Int) : ConsoleLine
deriving DecidableEq, Repr

/-- One iteration of the main measurement loop: call getDistance; on a
positive result update count, sum, min and max and print the sample
line; otherwise increment errors and print the waiting warning when
errors is a multiple of 20. -/
def loopBody (b : Bus) (s : Stats) : Bus × Stats × List ConsoleLine :=
  let r := getDistance b
  if r.1 > 0 then
    let count := s.count + 1
    let sum := s.sum + r.1
    let min_dist := if r.1 < s.min_dist then r.1 else s.min_dist
    let max_dist := if r.1 > s.max_dist then r.1 else s.max_dist
    (r.2, ⟨count, s.errors, sum, min_dist, max_dist⟩,
     [ConsoleLine.sample (printDistance r.1 count)])
  else
    let errors := s.errors + 1
    (r.2, ⟨s.count, errors, s.sum, s.min_dist, s.max_dist⟩,
     if errors % 20 = 0 then [ConsoleLine.waiting errors] else [])

/-- The first n iterations of the infinite measurement loop of main,
returning the final bus, the final accumulators and the concatenated
console output. -/
def mainLoop : Nat → Bus → Stats → Bus × Stats × List ConsoleLine
  | 0, b, s => (b, s, [])
  | n + 1, b, s =>
    let step := loopBody b s
    let rest := mainLoop n step.1 step.2.1
    (rest.1, rest.2.1, step.2.2 ++ rest.2.2)

/-- The startup path of main followed by n loop iterations: none when
initSensor fails, otherwise the accumulators and console output after
startRanging and n polls. -/
def runMain (f : Nat → Nat) (iters : Nat) : Option (Stats × List ConsoleLine) :=
  let r := initSensor (Bus.mk0 f)
  if r.1 ≠ 0 then none
  else
    let out := mainLoop iters (startRanging r.2) Stats.start
    some (out.2.1, out.2.2)

/-- The bus as main hands it to the measurement loop: after initSensor
and startRanging over a fresh mock bus. -/
def afterInit (f : Nat → Nat) : Bus :=
  startRanging (initSensor (Bus.mk0 f)).2

/-- The getDistance result of each of the first n loop iterations. -/
def resultsList : Nat → Bus → List Int
  | 0, _ => []
  | n + 1, b => (getDistance b).1 :: resultsList n (getDistance b).2

/-- The console lines emitted by each of the first n loop iterations,
kept per iteration. -/
def stepOutputs : Nat → Bus → Stats → List (List ConsoleLine)
  | 0, _, _ => []
  | n + 1, b, s =>
    let step := loopBody b s
    step.2.2 :: stepOutputs n step.1 step.2.1

/-- Whether a waiting warning line occurs among some console lines. -/
def hasWarning (ls : List ConsoleLine) : Bool :=
  ls.any fun l => match l with
    | ConsoleLine.waiting _ => true
    | _ => false

/-- The accumulator update of one loop iteration as a fold step over
the getDistance result. -/
def foldStats (s : Stats) (d : Int) : Stats :=
  if d > 0 then
    ⟨s.count + 1, s.errors, s.sum + d,
     if d < s.min_dist then d else s.min_dist,
     if d > s.max_dist then d else s.max_dist⟩
  else
    ⟨s.count, s.errors + 1, s.sum, s.min_dist, s.max_dist⟩

/-- The accepted samples among a list of getDistance results. -/
def acceptedResults (l : List Int) : List Int :=
  l.filter (fun d => d > 0)

/-- Distance sequence of the end-to-end scenario. -/
def scenarioDistances : List Nat := [50, 250, 500, 9000, 400]

/-- Mock oracle of the end-to-end scenario: model id 0xEACC, firmware
ready on the first poll, then every cycle data-ready with status nibble
0 and the scenario distances in order. -/
def c6Oracle : Nat → Nat :=
  fun i =>
    if i < 3 then [0xEA, 0xCC, 1].getD i 0
    else
      let d := scenarioDistances.getD ((i - 3) / 4) 0
      [1, 0, d / 256, d % 256].getD ((i - 3) % 4) 0

/-- Mock oracle with 19 not-ready cycles, then one valid 100 mm sample,
then not-ready cycles forever. -/
def c7Oracle : Nat → Nat :=
  fun i =>
    if i < 3 then [0xEA, 0xCC, 1].getD i 0
    else if i < 22 then 0
    else if i < 26 then [1, 0, 0, 100].getD (i - 22) 0
    else 0

/-- Formal reading of the consecutive-run warning claim for a run of n
iterations: a warning line is emitted at iteration i only if the 20
iterations ending at i all returned no sample. -/
def warningOnlyAfterConsecutive (f : Nat → Nat) (n : Nat) : Prop :=
  ∀ i, i < n →
    hasWarning ((stepOutputs n (afterInit f) Stats.start).getD i []) = true →
      ∀ j, j ≤ 19 → (resultsList n (afterInit f)).getD (i - j) 1 ≤ 0

/-- Mask with 0xFF is reduction mod 256. -/
theorem and255_eq_mod (x : Nat) : x &&& 0xFF = x % 256 := by
  have h := Nat.and_pow_two_sub_one_eq_mod x 8
  norm_num at h
  exact h

/-- Combining two bytes big-endian is multiplication and addition. -/
theorem or_comb (h l : Nat) (hl : l < 256) : (h <<< 8) ||| l = h * 256 + l := by
  have hmul : (2 : Nat) ^ 8 * h + l = 2 ^ 8 * h ||| l :=
    Nat.mul_add_lt_is_or (by norm_num [hl]) h
  rw [Nat.shiftLeft_eq, Nat.mul_comm]
  norm_num at hmul ⊢
  omega

/-- C3: writeReg16 transmits exactly the address bytes followed by the
two data bytes (value >>> 8) &&& 0xFF then value &&& 0xFF, big-endian;
and readReg16 over a mock register file returning those two bytes
reconstructs the original 16-bit value. -/
theorem writeReg16_bigEndian_roundtrip (b : Bus) (reg v : Nat) (hv : v < 65536) :
    (writeReg16 b reg v).trace =
      b.trace ++
        [BusEvent.writeReg8 ((reg >>> 8) &&& 0xFF) (reg &&& 0xFF),
         BusEvent.write ((v >>> 8) &&& 0xFF),
         BusEvent.write (v &&& 0xFF)] ∧
    (readReg16 (Bus.mk0 fun i => [(v >>> 8) &&& 0xFF, v &&& 0xFF].getD i 0) reg).1 = v := by
  constructor
  · simp [writeReg16, i2cWrite, i2cWriteReg8]
  · simp only [readReg16, readReg8, i2cWriteReg8, i2cRead, Bus.mk0,
      List.getD_cons_zero, List.getD_cons_succ, and255_eq_mod]
    have hsh : v >>> 8 = v / 256 := by
      have := Nat.shiftRight_eq_div_pow v 8
      norm_num at this
      exact this
    rw [or_comb _ _ (by omega)]
    omega

/-- Closed instance of the round-trip theorem at value 0xBEEF. -/
theorem writeReg16_bigEndian_roundtrip_witness :
    (writeReg16 (Bus.mk0 fun _ => 0) 0x005E 0xBEEF).trace =
      [] ++
        [BusEvent.writeReg8 ((0x005E >>> 8) &&& 0xFF) (0x005E &&& 0xFF),
         BusEvent.write ((0xBEEF >>> 8) &&& 0xFF),
         BusEvent.write (0xBEEF &&& 0xFF)] ∧
    (readReg16 (Bus.mk0 fun i => [(0xBEEF >>> 8) &&& 0xFF, 0xBEEF &&& 0xFF].getD i 0) 0x005E).1 = 0xBEEF :=
  writeReg16_bigEndian_roundtrip (Bus.mk0 fun _ => 0) 0x005E 0xBEEF (by norm_num)

/-- C1: with data ready, getDistance returns the 16-bit distance d read
from the result register, for status byte s, exactly when 0 < d < 8000
and the upper nibble (bits 4 to 7) of s is zero; otherwise it returns
the -1 sentinel. -/
theorem getDistance_validation (d s : Nat) (hd : d < 65536) (hs : s < 256) :
    (getDistance (Bus.mk0 fun i => [0x01, s, d / 256, d % 256].getD i 0)).1 =
      if 0 < d ∧ d < 8000 ∧ (s >>> 4) &&& 0x0F = 0 then (d : Int) else -1 := by
  have hsmod : s % 256 = s := Nat.mod_eq_of_lt hs
  have hdp : d / 256 % 256 = d / 256 := Nat.mod_eq_of_lt (by omega)
  have hcomb : ((d / 256 % 256) <<< 8) ||| d % 256 % 256 = d := by
    rw [hdp, Nat.mod_mod_of_dvd d (dvd_refl 256),
      or_comb _ _ (Nat.mod_lt d (by norm_num))]
    omega
  have hcomb2 : ((d / 256) <<< 8) ||| d % 256 = d := by
    rw [or_comb _ _ (Nat.mod_lt d (by norm_num))]
    omega
  simp only [getDistance, readReg8, readReg16, i2cWriteReg8, i2cRead, writeReg8,
    i2cWrite, Bus.mk0, List.getD_cons_zero, List.getD_cons_succ, and255_eq_mod]
  norm_num [hcomb, hcomb2, hsmod, hdp]
  by_cases h1 : 0 < d ∧ d < 8000 <;> by_cases hn : (s >>> 4) &&& 0x0F = 0 <;>
    simp [h1, hn]

/-- Closed instance of the validation theorem: distance 7999 with
status nibble 0 is accepted. -/
theorem getDistance_validation_witness :
    (getDistance (Bus.mk0 fun i => [0x01, 0, 7999 / 256, 7999 % 256].getD i 0)).1 =
      if 0 < 7999 ∧ 7999 < 8000 ∧ ((0 : Nat) >>> 4) &&& 0x0F = 0 then ((7999 : Nat) : Int) else -1 :=
  getDistance_validation 7999 0 (by norm_num) (by norm_num)

/-- C2: whenever the data-ready bit is set, getDistance performs the
interrupt-clear transaction (address 0x0086 then data byte 0x01)
exactly once, whether or not the reading is judged valid. -/
theorem getDistance_clears_once (f : Nat → Nat) (h : (f 0 &&& 0xFF) &&& 0x01 ≠ 0) :
    countClearWrites (getDistance (Bus.mk0 f)).2.trace = 1 := by
  simp only [getDistance, readReg8, readReg16, i2cWriteReg8, i2cRead, writeReg8,
    i2cWrite, Bus.mk0]
  rw [if_neg h]
  split_ifs <;>
    simp [countClearWrites, SYSTEM_INTERRUPT_CLEAR, GPIO_TIO_HV_STATUS,
      RESULT_RANGE_STATUS, RESULT_DISTANCE] <;>
    decide

/-- Closed instance of the clear-once theorem, on a bus whose reading
is judged invalid (distance 0). -/
theorem getDistance_clears_once_witness :
    countClearWrites (getDistance (Bus.mk0 fun _ => 1)).2.trace = 1 :=
  getDistance_clears_once (fun _ => 1) (by decide)

/-- C9: when the data-ready bit is unset, getDistance returns the -1
sentinel at once and the only bus traffic of the cycle is the GPIO
status read itself: no range-status read, no distance read, and no
interrupt-clear write. -/
theorem getDistance_notReady_frame (f : Nat → Nat) (h : (f 0 &&& 0xFF) &&& 0x01 = 0) :
    getDistance (Bus.mk0 f) =
      (-1, { reads := f, idx := 1,
             trace := [BusEvent.writeReg8 0x00 0x31, BusEvent.read (f 0)] }) ∧
    countClearWrites (getDistance (Bus.mk0 f)).2.trace = 0 := by
  have hmain : getDistance (Bus.mk0 f) =
      (-1, { reads := f, idx := 1,
             trace := [BusEvent.writeReg8 0x00 0x31, BusEvent.read (f 0)] }) := by
    simp only [getDistance, readReg8, i2cWriteReg8, i2cRead, Bus.mk0]
    rw [if_pos h]
    simp [GPIO_TIO_HV_STATUS]
    decide
  exact ⟨hmain, by rw [hmain]; simp [countClearWrites]⟩

/-- Closed instance of the not-ready frame theorem at the constant-zero
oracle. -/
theorem getDistance_notReady_frame_witness :
    getDistance (Bus.mk0 fun _ => 0) =
      (-1, { reads := fun _ => 0, idx := 1,
             trace := [BusEvent.writeReg8 0x00 0x31, BusEvent.read 0] }) ∧
    countClearWrites (getDistance (Bus.mk0 fun _ => 0)).2.trace = 0 :=
  getDistance_notReady_frame (fun _ => 0) (by decide)

/-- Each writeReg8 transaction only appends its two events. -/
theorem writeReg8_trace (b : Bus) (reg v : Nat) :
    (writeReg8 b reg v).trace =
      b.trace ++ [BusEvent.writeReg8 ((reg >>> 8) &&& 0xFF) (reg &&& 0xFF),
                  BusEvent.write v] := by
  simp [writeReg8, i2cWriteReg8, i2cWrite]

/-- Each writeReg16 transaction only appends its three events. -/
theorem writeReg16_trace (b : Bus) (reg v : Nat) :
    (writeReg16 b reg v).trace =
      b.trace ++ [BusEvent.writeReg8 ((reg >>> 8) &&& 0xFF) (reg &&& 0xFF),
                  BusEvent.write ((v >>> 8) &&& 0xFF), BusEvent.write (v &&& 0xFF)] := by
  simp [writeReg16, i2cWriteReg8, i2cWrite]

/-- Each readReg8 transaction only appends its two events. -/
theorem readReg8_trace (b : Bus) (reg : Nat) :
    (readReg8 b reg).2.trace =
      b.trace ++ [BusEvent.writeReg8 ((reg >>> 8) &&& 0xFF) (reg &&& 0xFF),
                  BusEvent.read (b.reads b.idx)] := by
  simp [readReg8, i2cWriteReg8, i2cRead]

/-- The firmware poll only appends events to the trace. -/
theorem fwPoll_trace (n : Nat) (b : Bus) :
    ∃ t, (fwPoll n b).2.trace = b.trace ++ t := by
  induction n generalizing b with
  | zero => exact ⟨[], by simp [fwPoll]⟩
  | succ n ih =>
    simp only [fwPoll]
    split_ifs with h
    · exact ⟨_, readReg8_trace b FIRMWARE_SYSTEM_STATUS⟩
    · obtain ⟨t, ht⟩ := ih (readReg8 b FIRMWARE_SYSTEM_STATUS).2
      rw [ht, readReg8_trace]
      exact ⟨_, by rw [List.append_assoc]⟩

/-- C4: initialization first reads the model id register; any value
other than 0xEACC makes initSensor fail with -1 having issued no bus
transaction beyond the identification read itself, while the value
0xEACC makes it proceed, the identification read being followed by the
first soft-reset write. -/
theorem initSensor_identification (f : Nat → Nat) :
    ((((f 0 &&& 0xFF) <<< 8) ||| (f 1 &&& 0xFF)) ≠ 0xEACC →
      initSensor (Bus.mk0 f) =
        (-1, { reads := f, idx := 2,
               trace := [BusEvent.writeReg8 0x01 0x0F, BusEvent.read (f 0),
                         BusEvent.read (f 1)] })) ∧
    ((((f 0 &&& 0xFF) <<< 8) ||| (f 1 &&& 0xFF)) = 0xEACC →
      ∃ rest, (initSensor (Bus.mk0 f)).2.trace =
        [BusEvent.writeReg8 0x01 0x0F, BusEvent.read (f 0), BusEvent.read (f 1),
         BusEvent.writeReg8 0x00 0x00, BusEvent.write 0x00] ++ rest) := by
  constructor
  · intro h
    simp only [initSensor, readReg16, i2cWriteReg8, i2cRead, Bus.mk0]
    rw [if_neg h]
    simp [IDENTIFICATION_MODEL_ID]
    decide
  · intro h
    have hr1 : (readReg16 (Bus.mk0 f) IDENTIFICATION_MODEL_ID).1 =
        ((f 0 &&& 0xFF) <<< 8) ||| (f 1 &&& 0xFF) := by
      simp [readReg16, i2cWriteReg8, i2cRead, Bus.mk0]
    have hid : (readReg16 (Bus.mk0 f) IDENTIFICATION_MODEL_ID).2.trace =
        [BusEvent.writeReg8 0x01 0x0F, BusEvent.read (f 0), BusEvent.read (f 1)] := by
      simp [readReg16, i2cWriteReg8, i2cRead, Bus.mk0, IDENTIFICATION_MODEL_ID]
      decide
    have hb3t : (writeReg8 (writeReg8 (readReg16 (Bus.mk0 f)
          IDENTIFICATION_MODEL_ID).2 SOFT_RESET 0x00) SOFT_RESET 0x01).trace =
        [BusEvent.writeReg8 0x01 0x0F, BusEvent.read (f 0), BusEvent.read (f 1),
         BusEvent.writeReg8 0x00 0x00, BusEvent.write 0x00,
         BusEvent.writeReg8 0x00 0x00, BusEvent.write 0x01] := by
      rw [writeReg8_trace, writeReg8_trace, hid]
      simp [SOFT_RESET]
    obtain ⟨t, ht⟩ := fwPoll_trace 100 (writeReg8 (writeReg8 (readReg16 (Bus.mk0 f)
      IDENTIFICATION_MODEL_ID).2 SOFT_RESET 0x00) SOFT_RESET 0x01)
    simp only [initSensor]
    rw [hr1, if_pos h]
    split_ifs with hp
    · refine ⟨[BusEvent.writeReg8 0x00 0x00, BusEvent.write 0x01] ++ t ++
        [BusEvent.writeReg8 0x00 0x60, BusEvent.write 0x09,
         BusEvent.writeReg8 0x00 0x63, BusEvent.write 0x0D,
         BusEvent.writeReg8 0x00 0x69, BusEvent.write 0xC8,
         BusEvent.writeReg8 0x00 0x5E, BusEvent.write 0x00, BusEvent.write 0xD6,
         BusEvent.writeReg8 0x00 0x61, BusEvent.write 0x00, BusEvent.write 0xD6,
         BusEvent.writeReg8 0x00 0x46, BusEvent.write 0x01,
         BusEvent.writeReg8 0x00 0x86, BusEvent.write 0x01], ?_⟩
      simp only [writeReg8_trace, writeReg16_trace, ht, hid]
      simp [SOFT_RESET, RANGE_CONFIG_VCSEL_PERIOD_A, RANGE_CONFIG_VCSEL_PERIOD_B,
        RANGE_CONFIG_VALID_PHASE_HIGH, RANGE_CONFIG_TIMEOUT_MACROP_A,
        RANGE_CONFIG_TIMEOUT_MACROP_B, SYSTEM_INTERRUPT_CONFIG_GPIO,
        SYSTEM_INTERRUPT_CLEAR]
      all_goals decide
    · refine ⟨[BusEvent.writeReg8 0x00 0x00, BusEvent.write 0x01] ++ t, ?_⟩
      rw [ht, hb3t]
      simp

set_option maxRecDepth 4000 in
/-- Closed instance of the identification theorem: the all-zero oracle
fails with only the identification read on the bus, and an oracle
answering 0xEA then 0xCC proceeds into the soft-reset write. -/
theorem initSensor_identification_witness :
    initSensor (Bus.mk0 fun _ => 0) =
      (-1, { reads := fun _ => 0, idx := 2,
             trace := [BusEvent.writeReg8 0x01 0x0F, BusEvent.read 0,
                       BusEvent.read 0] }) ∧
    ∃ rest, (initSensor (Bus.mk0 fun i => [0xEA, 0xCC].getD i 0)).2.trace =
      [BusEvent.writeReg8 0x01 0x0F, BusEvent.read 0xEA, BusEvent.read 0xCC,
       BusEvent.writeReg8 0x00 0x00, BusEvent.write 0x00] ++ rest :=
  ⟨(initSensor_identification (fun _ => 0)).1 (by decide),
   (initSensor_identification (fun i => [0xEA, 0xCC].getD i 0)).2 (by decide)⟩

set_option maxRecDepth 10000 in
/-- C5: with the firmware-ready bit clear on the first 99 polls and set
on the 100th, initialization succeeds after exactly 100 firmware-status
reads; with the bit never set, initialization fails with -1 after
exactly 100 firmware-status reads. -/
theorem fwPoll_hundred_attempts :
    (initSensor (Bus.mk0 fwLateOracle)).1 = 0 ∧
    countFwReads (initSensor (Bus.mk0 fwLateOracle)).2.trace = 100 ∧
    (initSensor (Bus.mk0 fwNeverOracle)).1 = -1 ∧
    countFwReads (initSensor (Bus.mk0 fwNeverOracle)).2.trace = 100 := by
  refine ⟨by decide, by decide, by decide, by decide⟩

set_option maxRecDepth 10000 in
/-- C6: on the mock bus with model id 0xEACC, firmware ready at the
first poll, and the distances 50, 250, 500, 9000 and 400 with status
nibble 0: sample 1 carries the very-close tag, sample 2 the close tag,
sample 3 is plain, the 9000 reading is discarded and counted as an
error, sample 4 (400 mm) is plain; the final count is 4 and the error
count is 1. -/
theorem endToEnd_scenario :
    runMain c6Oracle 5 =
      some (⟨4, 1, 1200, 50, 500⟩,
        [ConsoleLine.sample ⟨1, 50, 0, true, false⟩,
         ConsoleLine.sample ⟨2, 250, 2, false, true⟩,
         ConsoleLine.sample ⟨3, 500, 5, false, false⟩,
         ConsoleLine.sample ⟨4, 400, 4, false, false⟩]) := by
  decide

set_option maxRecDepth 10000 in
/-- Refutation of the consecutive reading of the warning rule: in the
concrete run with 19 no-sample cycles, one valid sample, then one more
no-sample cycle, a warning line is emitted at iteration 20 although the
iteration before it returned a valid sample, so no run of 20
consecutive no-sample cycles has completed there. -/
theorem warning_not_consecutive :
    ¬ warningOnlyAfterConsecutive c7Oracle 21 := by
  intro h
  have hw := h 20 (by norm_num) (by decide) 1 (by norm_num)
  have h19 : (resultsList 21 (afterInit c7Oracle)).getD (20 - 1) 1 = 100 := by decide
  omega

/-- C7 amended: one loop iteration emits the waiting warning line
exactly when its poll returned no sample and the cumulative error
count, including this cycle, is a multiple of 20; the line carries that
cumulative count. The count is cumulative across the whole run, not a
count of consecutive misses. -/
theorem warning_every_20th_invalid (b : Bus) (s : Stats) :
    ((∃ e, ConsoleLine.waiting e ∈ (loopBody b s).2.2) ↔
      ((getDistance b).1 ≤ 0 ∧ (s.errors + 1) % 20 = 0)) ∧
    (∀ e, ConsoleLine.waiting e ∈ (loopBody b s).2.2 → e = s.errors + 1) := by
  simp only [loopBody]
  split_ifs with h1 h2 <;> simp_all

/-- C8: for any accepted distance d the sample line shows min (d / 100)
40 bars, carries the very-close tag exactly when d < 100, and the close
tag exactly when 100 ≤ d < 300 (no tag at or above 300). -/
theorem printDistance_bars_tags (d c : Int) (hd0 : 0 < d) (hd8 : d < 8000) :
    (printDistance d c).bars = min (d / 100) 40 ∧
    ((printDistance d c).veryClose = true ↔ d < 100) ∧
    ((printDistance d c).close = true ↔ (100 ≤ d ∧ d < 300)) := by
  have ht : d.tdiv 100 = d / 100 := Int.tdiv_eq_ediv (by omega) (by norm_num)
  simp only [printDistance]
  split_ifs <;> simp_all <;> omega

/-- Closed instance of the bar and tag theorem at 250 mm: two bars and
the close tag. -/
theorem printDistance_bars_tags_witness :
    (printDistance 250 1).bars = min ((250 : Int) / 100) 40 ∧
    ((printDistance 250 1).veryClose = true ↔ (250 : Int) < 100) ∧
    ((printDistance 250 1).close = true ↔ ((100 : Int) ≤ 250 ∧ (250 : Int) < 300)) :=
  printDistance_bars_tags 250 1 (by norm_num) (by norm_num)

/-- One loop iteration advances the bus exactly as getDistance does. -/
theorem loopBody_bus (b : Bus) (s : Stats) : (loopBody b s).1 = (getDistance b).2 := by
  simp only [loopBody]
  split_ifs <;> rfl

/-- One loop iteration updates the accumulators as the fold step over
the getDistance result. -/
theorem loopBody_stats (b : Bus) (s : Stats) :
    (loopBody b s).2.1 = foldStats s (getDistance b).1 := by
  simp only [loopBody, foldStats]
  split_ifs <;> rfl

/-- The accumulators after n iterations are the fold of the step
function over the list of getDistance results. -/
theorem mainLoop_stats_fold (n : Nat) (b : Bus) (s : Stats) :
    (mainLoop n b s).2.1 = List.foldl foldStats s (resultsList n b) := by
  induction n generalizing b s with
  | zero => rfl
  | succ n ih =>
    simp only [mainLoop, resultsList, List.foldl_cons]
    rw [loopBody_bus, loopBody_stats]
    exact ih _ _

/-- resultsList returns one result per iteration. -/
theorem resultsList_length (n : Nat) (b : Bus) : (resultsList n b).length = n := by
  induction n generalizing b with
  | zero => rfl
  | succ n ih => simp [resultsList, ih]

/-- Unfolding of the accepted filter over a cons cell. -/
theorem acceptedResults_cons (d : Int) (l : List Int) :
    acceptedResults (d :: l) =
      if d > 0 then d :: acceptedResults l else acceptedResults l := by
  simp only [acceptedResults, List.filter_cons]
  split_ifs with h1 h2 <;> simp_all

/-- Membership in the accepted filter. -/
theorem mem_acceptedResults (x : Int) (l : List Int) :
    x ∈ acceptedResults l ↔ x ∈ l ∧ x > 0 := by
  simp [acceptedResults, List.mem_filter]

/-- Fold characterization of the count accumulator. -/
theorem foldStats_count (l : List Int) (s : Stats) :
    (List.foldl foldStats s l).count = s.count + (acceptedResults l).length := by
  induction l generalizing s with
  | nil => simp [acceptedResults]
  | cons d l ih =>
    rw [List.foldl_cons, ih, acceptedResults_cons]
    by_cases hd : d > 0 <;> simp [foldStats, hd] <;> push_cast <;> ring

/-- Fold characterization of the errors accumulator. -/
theorem foldStats_errors (l : List Int) (s : Stats) :
    (List.foldl foldStats s l).errors =
      s.errors + ((l.length : Int) - (acceptedResults l).length) := by
  induction l generalizing s with
  | nil => simp [acceptedResults]
  | cons d l ih =>
    rw [List.foldl_cons, ih, acceptedResults_cons]
    by_cases hd : d > 0 <;> simp [foldStats, hd] <;> push_cast <;> ring

/-- Fold characterization of the sum accumulator. -/
theorem foldStats_sum (l : List Int) (s : Stats) :
    (List.foldl foldStats s l).sum = s.sum + (acceptedResults l).sum := by
  induction l generalizing s with
  | nil => simp [acceptedResults]
  | cons d l ih =>
    rw [List.foldl_cons, ih, acceptedResults_cons]
    by_cases hd : d > 0 <;> simp [foldStats, hd] <;> ring

/-- Fold characterization of the minimum accumulator. -/
theorem foldStats_min (l : List Int) (s : Stats) :
    (List.foldl foldStats s l).min_dist =
      List.foldl min s.min_dist (acceptedResults l) := by
  induction l generalizing s with
  | nil => simp [acceptedResults]
  | cons d l ih =>
    rw [List.foldl_cons, ih, acceptedResults_cons]
    by_cases hd : d > 0
    · simp only [if_pos hd, List.foldl_cons]
      congr 1
      simp [foldStats, hd]
      omega
    · simp [foldStats, hd]

/-- Fold characterization of the maximum accumulator. -/
theorem foldStats_max (l : List Int) (s : Stats) :
    (List.foldl foldStats s l).max_dist =
      List.foldl max s.max_dist (acceptedResults l) := by
  induction l generalizing s with
  | nil => simp [acceptedResults]
  | cons d l ih =>
    rw [List.foldl_cons, ih, acceptedResults_cons]
    by_cases hd : d > 0
    · simp only [if_pos hd, List.foldl_cons]
      congr 1
      simp [foldStats, hd]
      omega
    · simp [foldStats, hd]

/-- A min fold is a lower bound of its seed and of every element. -/
theorem foldl_min_le (l : List Int) (a : Int) :
    List.foldl min a l ≤ a ∧ ∀ x ∈ l, List.foldl min a l ≤ x := by
  induction l generalizing a with
  | nil => simp
  | cons d l ih =>
    simp only [List.foldl_cons]
    refine ⟨le_trans (ih (min a d)).1 (min_le_left a d), ?_⟩
    intro x hx
    rcases List.mem_cons.mp hx with h | h
    · subst h
      exact le_trans (ih (min a x)).1 (min_le_right a x)
    · exact (ih (min a d)).2 x h

/-- A min fold yields its seed or one of the elements. -/
theorem foldl_min_mem (l : List Int) (a : Int) :
    List.foldl min a l = a ∨ List.foldl min a l ∈ l := by
  induction l generalizing a with
  | nil => simp
  | cons d l ih =>
    simp only [List.foldl_cons]
    rcases ih (min a d) with h | h
    · rcases le_total a d with had | had
      · left
        rw [h, min_eq_left had]
      · right
        rw [h, min_eq_right had]
        exact List.mem_cons_self d l
    · right
      exact List.mem_cons_of_mem d h

/-- A max fold is an upper bound of its seed and of every element. -/
theorem foldl_max_ge (l : List Int) (a : Int) :
    a ≤ List.foldl max a l ∧ ∀ x ∈ l, x ≤ List.foldl max a l := by
  induction l generalizing a with
  | nil => simp
  | cons d l ih =>
    simp only [List.foldl_cons]
    refine ⟨le_trans (le_max_left a d) (ih (max a d)).1, ?_⟩
    intro x hx
    rcases List.mem_cons.mp hx with h | h
    · subst h
      exact le_trans (le_max_right a x) (ih (max a x)).1
    · exact (ih (max a d)).2 x h

/-- A max fold yields its seed or one of the elements. -/
theorem foldl_max_mem (l : List Int) (a : Int) :
    List.foldl max a l = a ∨ List.foldl max a l ∈ l := by
  induction l generalizing a with
  | nil => simp
  | cons d l ih =>
    simp only [List.foldl_cons]
    rcases ih (max a d) with h | h
    · rcases le_total a d with had | had
      · right
        rw [h, max_eq_right had]
        exact List.mem_cons_self d l
      · left
        rw [h, max_eq_left had]
    · right
      exact List.mem_cons_of_mem d h

/-- Every getDistance result is the -1 sentinel or a distance strictly
between 0 and 8000. -/
theorem getDistance_range (b : Bus) :
    (getDistance b).1 = -1 ∨ (0 < (getDistance b).1 ∧ (getDistance b).1 < 8000) := by
  simp only [getDistance]
  split_ifs with h1 h2 h3
  · left
    rfl
  · right
    simp only []
    omega
  · left
    rfl
  · left
    rfl

/-- Every entry of a results list is the -1 sentinel or a distance
strictly between 0 and 8000. -/
theorem resultsList_range (n : Nat) (b : Bus) :
    ∀ x ∈ resultsList n b, x = -1 ∨ (0 < x ∧ x < 8000) := by
  induction n generalizing b with
  | zero => simp [resultsList]
  | succ n ih =>
    intro x hx
    simp only [resultsList] at hx
    rcases List.mem_cons.mp hx with h | h
    · subst h
      exact getDistance_range b
    · exact ih _ x h

/-- C10: for every oracle and every iteration count n, the accumulators
of main satisfy the statistics invariant: count is the number of
accepted samples, errors the number of no-sample cycles, sum the sum of
the accepted distances, min_dist the minimum accepted distance (9999
when none was accepted) and max_dist the maximum accepted distance (0
when none was accepted). -/
theorem mainLoop_stats_invariant (f : Nat → Nat) (n : Nat) :
    (mainLoop n (afterInit f) Stats.start).2.1.count =
        ((acceptedResults (resultsList n (afterInit f))).length : Int) ∧
    (mainLoop n (afterInit f) Stats.start).2.1.errors =
        (n : Int) - ((acceptedResults (resultsList n (afterInit f))).length : Int) ∧
    (mainLoop n (afterInit f) Stats.start).2.1.sum =
        (acceptedResults (resultsList n (afterInit f))).sum ∧
    (acceptedResults (resultsList n (afterInit f)) = [] →
      (mainLoop n (afterInit f) Stats.start).2.1.min_dist = 9999 ∧
      (mainLoop n (afterInit f) Stats.start).2.1.max_dist = 0) ∧
    (acceptedResults (resultsList n (afterInit f)) ≠ [] →
      ((mainLoop n (afterInit f) Stats.start).2.1.min_dist ∈
          acceptedResults (resultsList n (afterInit f)) ∧
        ∀ x ∈ acceptedResults (resultsList n (afterInit f)),
          (mainLoop n (afterInit f) Stats.start).2.1.min_dist ≤ x) ∧
      ((mainLoop n (afterInit f) Stats.start).2.1.max_dist ∈
          acceptedResults (resultsList n (afterInit f)) ∧
        ∀ x ∈ acceptedResults (resultsList n (afterInit f)),
          x ≤ (mainLoop n (afterInit f) Stats.start).2.1.max_dist)) := by
  have hfold := mainLoop_stats_fold n (afterInit f) Stats.start
  have hlen := resultsList_length n (afterInit f)
  have hrange := resultsList_range n (afterInit f)
  have haccrange : ∀ x ∈ acceptedResults (resultsList n (afterInit f)),
      0 < x ∧ x < 8000 := by
    intro x hx
    obtain ⟨hmem, hpos⟩ := (mem_acceptedResults x _).mp hx
    rcases hrange x hmem with h | h
    · omega
    · exact h
  refine ⟨?_, ?_, ?_, ?_, ?_⟩
  · rw [hfold, foldStats_count]
    simp [Stats.start]
  · rw [hfold, foldStats_errors, hlen]
    simp [Stats.start]
  · rw [hfold, foldStats_sum]
    simp [Stats.start]
  · intro hnil
    rw [hfold]
    constructor
    · rw [foldStats_min, hnil]
      rfl
    · rw [foldStats_max, hnil]
      rfl
  · intro hne
    obtain ⟨y, hy⟩ := List.exists_mem_of_ne_nil _ hne
    have hy8 := haccrange y hy
    rw [hfold]
    constructor
    · rw [foldStats_min]
      have hmin : (Stats.start).min_dist = 9999 := rfl
      rw [hmin]
      have hle := foldl_min_le (acceptedResults (resultsList n (afterInit f))) 9999
      refine ⟨?_, hle.2⟩
      rcases foldl_min_mem (acceptedResults (resultsList n (afterInit f))) 9999 with h | h
      · have := hle.2 y hy
        rw [h] at this
        omega
      · exact h
    · rw [foldStats_max]
      have hmax : (Stats.start).max_dist = 0 := rfl
      rw [hmax]
      have hge := foldl_max_ge (acceptedResults (resultsList n (afterInit f))) 0
      refine ⟨?_, hge.2⟩
      rcases foldl_max_mem (acceptedResults (resultsList n (afterInit f))) 0 with h | h
      · have := hge.2 y hy
        rw [h] at this
        omega
      · exact h

end VL53L1X
